import Mathlib

/-!
Verification development for the message-payload normalizer of
`src/structures/APIMessage.js`.

JavaScript values are embedded shallowly: strings become `List Char`
(so that length and splitting arguments are elementary list inductions),
`undefined` becomes `Option.none`, the `undefined`/`null`/value
trichotomy of a field becomes a dedicated inductive, and code that can
throw returns `Except`.  External collaborators that are not under
`src/` (the `Util` helpers, `DataResolver`, message collections, embed
and component normalizers) are modelled from the spec; each such
definition carries a doc comment saying so.
-/

/-- JavaScript strings, modelled as lists of characters. -/
abbrev JStr := List Char

/-- Errors raised synchronously by the builder: the `RangeError` codes
`MESSAGE_CONTENT_TYPE` and `MESSAGE_NONCE_TYPE` of the source, and the
split failure of spec section 4.2. -/
inductive RErr where
  | contentType
  | nonceType
  | splitMaxLen
  deriving DecidableEq

/-- Failure of the external file-loading collaborator (spec section 4.3). -/
inductive LoadErr where
  | ioError (code : Nat)
  deriving DecidableEq

/-- Splits a character list at every occurrence of the boundary
character, keeping empty segments, like `String.prototype.split` with a
one-character separator. -/
def splitOnChar (c : Char) : List Char → List (List Char)
  | [] => [[]]
  | x :: xs =>
    match splitOnChar c xs with
    | [] => [[x]]
    | h :: t => if x = c then [] :: h :: t else (x :: h) :: t

/-- Configuration object accepted by the split option. The boundary is
modelled as a single character (the default is a newline). -/
structure SplitConfig where
  maxLength : Option Nat := none
  char : Option Char := none
  prepend : Option JStr := none
  append : Option JStr := none
  deriving DecidableEq

/-- Greedy re-packing of the boundary-separated pieces: pieces are glued
back with the boundary character while the chunk (plus its pending
`append`) stays within `maxLen`; when the next piece would overflow, the
current chunk is emitted with `append` and a new chunk is started from
`pre`.  The first chunk starts bare and the final chunk gets no
`append`. -/
def splitRun (maxLen : Nat) (ch : Char) (pre app : JStr) :
    List JStr → JStr → List JStr
  | [], cur => [cur]
  | p :: ps, cur =>
    if maxLen < (cur ++ ch :: p ++ app).length then
      (cur ++ app) :: splitRun maxLen ch pre app ps (pre ++ p)
    else
      splitRun maxLen ch pre app ps (cur ++ ch :: p)

/-- Modelled from the spec: `Util.splitMessage` is not under `src/`.
Per section 4.2, content is split at the boundary character and re-packed
into ordered chunks; every chunk except the first is prefixed by
`prepend` and every chunk except the last is suffixed by `append`;
chunk length after prepend/append never exceeds `maxLength`; a single
atomic piece that cannot fit even alone fails with the split error.
Content already within the limit is returned as the single chunk. -/
def splitMessage (text : JStr) (sc : SplitConfig) : Except RErr (List JStr) :=
  let maxLen := sc.maxLength.getD 2000
  let ch := sc.char.getD '\n'
  let pre := sc.prepend.getD []
  let app := sc.append.getD []
  if text.length ≤ maxLen then .ok [text]
  else
    let pieces := splitOnChar ch text
    if pieces.any fun q => maxLen < pre.length + q.length + app.length then
      .error .splitMaxLen
    else
      match pieces with
      | [] => .ok []
      | p :: ps => .ok (splitRun maxLen ch pre app ps p)

/-- Three backticks, the code-fence marker. -/
def bt3 : JStr := "```".toList

/-- Opening fence for a language tag: the marker followed by the tag. -/
def fenceOpen (cn : JStr) : JStr := bt3 ++ cn

/-- Wraps already-cleaned content in a fenced code block, as the template
literal of source line 109 does. -/
def fenceWrap (cn inner : JStr) : JStr :=
  fenceOpen cn ++ '\n' :: (inner ++ '\n' :: bt3)

/-- Modelled from the spec: `Util.cleanCodeBlockContent` is not under
`src/` and the spec does not describe an escaping step for the fenced
interior, so the interior transformation is modelled as the identity. -/
def cleanCodeBlockContent (s : JStr) : JStr := s

/-- Fence injection of source lines 111-112: the opening fence plus a
newline is appended to the configured `prepend`, and a newline plus the
closing marker is prepended to the configured `append` (an absent or
empty field counts as the empty string, as the JS `||` does). -/
def injectFences (cn : JStr) (sc : SplitConfig) : SplitConfig :=
  { sc with
    prepend := some (sc.prepend.getD [] ++ fenceOpen cn ++ ['\n'])
    append := some ('\n' :: (bt3 ++ sc.append.getD [])) }

/-- The `content` option: absent, explicitly null, a string, or some
other (rejected) value. -/
inductive ContentOpt where
  | undef
  | nullC
  | strC (s : JStr)
  | nonstring
  deriving DecidableEq

/-- The `code` option: absent, `false`, `true`, or a language tag. -/
inductive CodeOpt where
  | undef
  | fls
  | tru
  | lang (s : JStr)
  deriving DecidableEq

/-- The `split` option: absent, `false`, `true`, or a configuration. -/
inductive SplitOpt where
  | undef
  | fls
  | tru
  | cfg (c : SplitConfig)
  deriving DecidableEq

/-- Language tag of an active `code` option (`some` exactly when the
source's `isCode` test holds; boolean `true` yields the empty tag, as
`typeof this.options.code === 'string' ? this.options.code : ''` does). -/
def codeNameOf : CodeOpt → Option JStr
  | .undef => none
  | .fls => none
  | .tru => some []
  | .lang s => some s

/-- Split configuration of an active `split` option (`some` exactly when
the source's `isSplit` test holds; the spread of `true` is the empty
configuration object). -/
def splitCfgOf : SplitOpt → Option SplitConfig
  | .undef => none
  | .fls => none
  | .tru => some {}
  | .cfg c => some c

/-- Value of the built `content`: `undefined`, a single string, or an
array of chunk strings. -/
inductive ContentVal where
  | undef
  | strV (s : JStr)
  | arrV (l : List JStr)
  deriving DecidableEq

/-- Mirrors `APIMessage#makeContent` (source lines 92-122).
`Util.verifyString` is not under `src/`; modelled from the spec: a
non-string, non-null, non-absent `content` fails with the
invalid-content-type error.  Explicit `null` becomes the empty string;
an absent option stays absent; empty strings skip fencing and
splitting, as the source's truthiness test does. -/
def makeContent (o : ContentOpt) (codeO : CodeOpt) (splitO : SplitOpt) :
    Except RErr ContentVal :=
  match (match o with
         | .undef => Except.ok (Option.none (α := JStr))
         | .nullC => .ok (some [])
         | .strC s => .ok (some s)
         | .nonstring => .error RErr.contentType) with
  | .error e => .error e
  | .ok none => .ok .undef
  | .ok (some s) =>
    if s.isEmpty then .ok (.strV s)
    else
      match codeNameOf codeO, splitCfgOf splitO with
      | some cn, some sc =>
        (match splitMessage (fenceWrap cn (cleanCodeBlockContent s)) (injectFences cn sc) with
         | .error e => .error e
         | .ok l => .ok (.arrV l))
      | some cn, none => .ok (.strV (fenceWrap cn (cleanCodeBlockContent s)))
      | none, some sc =>
        (match splitMessage s sc with
         | .error e => .error e
         | .ok l => .ok (.arrV l))
      | none, none => .ok (.strV s)

/-- The `nonce` option as supplied: absent, an integral number, a
non-integral number, a string, or some other value. -/
inductive NonceOpt where
  | undef
  | intN (n : Int)
  | nonIntNum
  | strN (s : JStr)
  | other
  deriving DecidableEq

/-- A validated nonce: an integral number or a string. -/
inductive NonceVal where
  | intN (n : Int)
  | strN (s : JStr)
  deriving DecidableEq

/-- Nonce validation of source lines 137-144: absent passes through,
integers and strings are kept, everything else raises
`MESSAGE_NONCE_TYPE`. -/
def nonceCheck : NonceOpt → Except RErr (Option NonceVal)
  | .undef => .ok none
  | .intN n => .ok (some (.intN n))
  | .strN s => .ok (some (.strN s))
  | .nonIntNum => .error .nonceType
  | .other => .error .nonceType

/-- A file-attachable value: a path/URL string, a raw buffer, or a
stream-capable object (which may expose a `path`). -/
inductive Attachment where
  | strA (s : JStr)
  | bufA (id : Nat)
  | streamA (path : Option JStr) (id : Nat)
  deriving DecidableEq

/-- A described file input: `{attachment, name}`. -/
structure FileDesc where
  attachment : Attachment
  name : Option JStr
  deriving DecidableEq

/-- A file-like input: either an own attachment (string, buffer or
stream) or a descriptor object. -/
inductive FileLike where
  | bare (a : Attachment)
  | descr (d : FileDesc)
  deriving DecidableEq

/-- Modelled from the spec: an embed-like descriptor is abstract except
for the `files` list it may bundle (section 4.3) and an opaque payload
that its wire normalization preserves. -/
structure EmbedLike where
  payload : Nat
  files : Option (List FileLike) := none
  deriving DecidableEq

/-- Modelled from the spec: the embed normalizer (`new
MessageEmbed(e).toJSON()`) is not under `src/`; section 4.4.5 says each
embed-like value is normalized to its wire form independently with
order preserved, so the wire form is modelled as the opaque payload. -/
def embedToWire (e : EmbedLike) : Nat := e.payload

/-- Modelled from the spec: `Util.basename` is not under `src/`;
section 4.3 derives a display name as the basename of a path-like
string, modelled as the final slash-separated segment. -/
def basenameM (p : JStr) : JStr := (splitOnChar '/' p).getLastD p

/-- Name derivation of source lines 289-299: strings use their basename,
objects with a (truthy) `path` use the path's basename, anything else
falls back to the literal `file.jpg`. -/
def findName : Attachment → JStr
  | .strA s => basenameM s
  | .streamA (some p) _ => if p.isEmpty then "file.jpg".toList else basenameM p
  | .streamA none _ => "file.jpg".toList
  | .bufA _ => "file.jpg".toList

/-- A resolved file, ready for multipart upload. -/
structure ResolvedFile where
  attachment : Attachment
  name : JStr
  file : Nat
  deriving DecidableEq

/-- Mirrors the static `APIMessage.resolveFile` (source lines 285-313);
`loader` stands for the external `DataResolver.resolveFile`
collaborator, whose outcome for each attachment is passed in as a
function.  An explicit falsy (`""`) name on a descriptor falls back to
the derived name, as the JS `||` does. -/
def resolveFileM (loader : Attachment → Except LoadErr Nat) :
    FileLike → Except LoadErr ResolvedFile
  | .bare a =>
    (match loader a with
     | .error e => .error e
     | .ok r => .ok { attachment := a, name := findName a, file := r })
  | .descr dsc =>
    (match loader dsc.attachment with
     | .error e => .error e
     | .ok r =>
       .ok { attachment := dsc.attachment
             name := match dsc.name with
               | some n => if n.isEmpty then findName dsc.attachment else n
               | none => findName dsc.attachment
             file := r })

/-- Aggregation of independent fallible results in declaration order:
the embedding of `Promise.all` over an array of already-started
resolutions.  The whole computation fails if any element fails, and no
partial list is ever produced. -/
def mapE (h : α → Except ε β) : List α → Except ε (List β)
  | [] => .ok []
  | a :: l =>
    match h a with
    | .error e => .error e
    | .ok b =>
      match mapE h l with
      | .error e => .error e
      | .ok bs => .ok (b :: bs)

/-- The allowed-mentions option object as supplied by the caller, with
its `repliedUser` field and an opaque remainder. -/
structure RawAllowedMentions where
  repliedUser : Option Bool
  rest : Nat
  deriving DecidableEq

/-- The wire-shaped allowed-mentions object: `replied_user` instead of
`repliedUser`, remainder untouched. -/
structure WireAllowedMentions where
  replied_user : Option Bool
  rest : Nat
  deriving DecidableEq

/-- An allowed-mentions option slot: absent, explicitly null, or an
object. -/
inductive AMVal where
  | undef
  | nullv
  | obj (a : RawAllowedMentions)
  deriving DecidableEq

/-- The `allowed_mentions` field of a built payload: absent, null, a
wire-normalized object, or a raw (un-renamed) option object as placed by
the split loop of source line 268. -/
inductive AMField where
  | undef
  | nullv
  | wire (w : WireAllowedMentions)
  | rawObj (a : RawAllowedMentions)
  deriving DecidableEq

/-- Embeds an option slot value directly into the payload field, without
the wire renaming (this is what the non-last split chunks do). -/
def amFieldOfOpt : AMVal → AMField
  | .undef => .undef
  | .nullv => .nullv
  | .obj a => .rawObj a

/-- A component-like entry: a bare array of component descriptors or a
single component object. -/
inductive CompLike where
  | arrC (l : List Nat)
  | objC (n : Nat)
  deriving DecidableEq

/-- A wire-form component entry. -/
inductive CompWire where
  | actionRow (l : List Nat)
  | single (n : Nat)
  deriving DecidableEq

/-- Modelled from the spec: `BaseMessageComponent.create(...).toJSON()`
is not under `src/`; section 4.4.6 says a bare array is treated as an
implicit single action-row container and other entries are normalized
independently. -/
def compToWire : CompLike → CompWire
  | .arrC l => .actionRow l
  | .objC n => .single n

/-- The `reply` option object. -/
structure ReplyOpt where
  messageReference : JStr
  failIfNotExists : Option Bool
  deriving DecidableEq

/-- The wire `message_reference` object. -/
structure MsgRef where
  message_id : JStr
  fail_if_not_exists : Bool
  deriving DecidableEq

/-- The recognized send options (spec section 3), with absent fields as
`none`. -/
structure Options where
  content : ContentOpt := .undef
  tts : Option Bool := none
  nonce : NonceOpt := .undef
  embed : Option (Option EmbedLike) := none
  embeds : Option (List EmbedLike) := none
  components : Option (List CompLike) := none
  files : Option (List FileLike) := none
  attachments : Option (List Nat) := none
  allowedMentions : AMVal := .undef
  reply : Option ReplyOpt := none
  ephemeral : Option Bool := none
  username : Option JStr := none
  avatarURL : Option JStr := none
  split : SplitOpt := .undef
  code : CodeOpt := .undef
  flags : Option Nat := none
  deriving DecidableEq

/-- The concrete classes a send target can be an instance of (the
`instanceof` tests of source lines 50-86). -/
inductive TargetKind where
  | channel
  | dm
  | user
  | guildMember
  | webhook
  | webhookClient
  | message
  | interaction
  | interactionWebhook
  deriving DecidableEq

/-- Modelled from the spec: the message-collection collaborator of
section 6, exposing `resolveID : reference -> identifier or undefined`. -/
structure MsgColl where
  resolveID : JStr → Option JStr

/-- Modelled from the spec: the client-wide defaults provider of
section 6, exposing the configured default allowed-mentions policy. -/
structure ClientOpts where
  allowedMentions : AMVal

/-- A send target: its class, webhook name, current message flag
bitfield (message targets), its own message collection, its channel's
message collection (message targets), and the owning client's
defaults. -/
structure Target where
  kind : TargetKind
  name : Option JStr := none
  flagsBitfield : Nat := 0
  messages : MsgColl
  channelMessages : MsgColl
  client : ClientOpts

/-- The `isWebhook` facet (source lines 50-54). -/
def isWebhookT (t : Target) : Bool :=
  t.kind == .webhook || t.kind == .webhookClient

/-- The `isUser` facet (source lines 61-65). -/
def isUserT (t : Target) : Bool :=
  t.kind == .user || t.kind == .guildMember

/-- The `isMessage` facet (source lines 72-75). -/
def isMessageT (t : Target) : Bool :=
  t.kind == .message

/-- The `isInteraction` facet (source lines 82-86). -/
def isInteractionT (t : Target) : Bool :=
  t.kind == .interaction || t.kind == .interactionWebhook

/-- The combined webhook-or-interaction test of source line 132. -/
def isWebhookLikeT (t : Target) : Bool :=
  isInteractionT t || isWebhookT t

/-- Modelled from the spec: `MessageFlags` resolution is not under
`src/`; an explicit flags override is taken as a bit field
(section 4.4.8). -/
def flagsResolve (n : Nat) : Nat := n

/-- Modelled from the spec: the ephemeral bit
(`MessageFlags.FLAGS.EPHEMERAL`). -/
def ephemeralFlag : Nat := 64

/-- The `embed` field of a built payload: absent, explicitly null, or a
wire embed. -/
inductive EmbedField where
  | undef
  | nullv
  | obj (e : Nat)
  deriving DecidableEq

/-- The normalized wire-ready payload (`this.data` of the source). -/
structure PayloadData where
  content : ContentVal
  tts : Bool
  nonce : Option NonceVal
  embed : EmbedField
  embeds : Option (List Nat)
  components : Option (List CompWire)
  username : Option JStr
  avatar_url : Option JStr
  allowed_mentions : AMField
  flags : Option Nat
  message_reference : Option MsgRef
  attachments : Option (List Nat)
  deriving DecidableEq

/-- Whether a built content value is `undefined`. -/
def contentUndef : ContentVal → Bool
  | .undef => true
  | _ => false

/-- JavaScript `a || b` on optional strings (an absent or empty left
operand yields the right operand). -/
def jsOr (a b : Option JStr) : Option JStr :=
  match a with
  | some s => if s.isEmpty then b else some s
  | none => b

/-- JavaScript truthiness filter on an optional string (absent or empty
becomes absent). -/
def jsTruthy (a : Option JStr) : Option JStr :=
  match a with
  | some s => if s.isEmpty then none else some s
  | none => none

/-- Allowed-mentions selection of source lines 177-180: the explicit
option (even an explicit null) wins; an absent option inherits the
client-wide default. -/
def selMentions (client : ClientOpts) (o : Options) : AMVal :=
  match o.allowedMentions with
  | .undef => client.allowedMentions
  | v => v

/-- Wire normalization of source lines 182-186: a truthy selected value
is cloned with `repliedUser` renamed to `replied_user` (the wire shape
has no `repliedUser` key); null and absent values pass through. -/
def renameMentions : AMVal → AMField
  | .undef => .undef
  | .nullv => .nullv
  | .obj a => .wire { replied_user := a.repliedUser, rest := a.rest }

/-- The embed-like values gathered by source lines 146-153 and 226-233:
webhook-like dialects read the `embeds` array, every other dialect reads
the single truthy `embed`. -/
def gatherEmbedLikes (isWL : Bool) (o : Options) : List EmbedLike :=
  if isWL then o.embeds.getD []
  else
    match o.embed with
    | some (some e) => [e]
    | _ => []

/-- Reply resolution of source lines 188-199: a message-dialect target
resolves through its channel's collection, every other target through
its own; a falsy identifier is dropped silently; `fail_if_not_exists`
defaults to `true`. -/
def resolveReference (isMessageB : Bool) (msgs chMsgs : MsgColl)
    (o : Options) : Option MsgRef :=
  match o.reply with
  | some r =>
    (match (if isMessageB then chMsgs else msgs).resolveID r.messageReference with
     | some i =>
       if i.isEmpty then none
       else some { message_id := i, fail_if_not_exists := r.failIfNotExists.getD true }
     | none => none)
  | none => none

/-- The payload object literal of source lines 201-215, given the
already-validated content and nonce. -/
def mkPayload (isWebhookB isInteractionB isMessageB : Bool)
    (tname : Option JStr) (flagsB : Nat) (msgs chMsgs : MsgColl)
    (client : ClientOpts) (o : Options) (content : ContentVal)
    (nonce : Option NonceVal) : PayloadData :=
  let isWebhookLikeB := isInteractionB || isWebhookB
  let embeds := (gatherEmbedLikes isWebhookLikeB o).map embedToWire
  let message_reference := resolveReference isMessageB msgs chMsgs o
  { content := content
    tts := o.tts.getD false
    nonce := nonce
    embed :=
      if isWebhookLikeB then .undef
      else
        match o.embed with
        | some none => .nullv
        | _ => match embeds with
          | [] => .undef
          | e :: _ => .obj e
    embeds := if isWebhookLikeB then some embeds else none
    components := o.components.map fun cs => cs.map compToWire
    username := if isWebhookB then jsOr o.username tname else none
    avatar_url := if isWebhookB then jsTruthy o.avatarURL else none
    allowed_mentions :=
      if contentUndef content && message_reference.isNone then .undef
      else renameMentions (selMentions client o)
    flags :=
      if isMessageB then
        some (match o.flags with
              | some n => flagsResolve n
              | none => flagsB)
      else if isInteractionB && o.ephemeral.getD false then some ephemeralFlag
      else none
    message_reference := message_reference
    attachments := o.attachments }

/-- Core of `APIMessage#resolveData` (source lines 128-217), abstracted
over the already-computed facet booleans and the target's fields:
content formatting and nonce validation may throw, then the payload
literal is assembled. -/
def buildCore (isWebhookB isInteractionB isMessageB : Bool)
    (tname : Option JStr) (flagsB : Nat) (msgs chMsgs : MsgColl)
    (client : ClientOpts) (o : Options) : Except RErr PayloadData :=
  match makeContent o.content o.code o.split with
  | .error e => .error e
  | .ok content =>
    match nonceCheck o.nonce with
    | .error e => .error e
    | .ok nonce =>
      .ok (mkPayload isWebhookB isInteractionB isMessageB tname flagsB
        msgs chMsgs client o content nonce)

/-- Mirrors `APIMessage#resolveData` for a target, reading the facets at
the top as source lines 130-131 do. -/
def buildData (t : Target) (o : Options) : Except RErr PayloadData :=
  buildCore (isWebhookT t) (isInteractionT t) (isMessageT t) t.name
    t.flagsBitfield t.messages t.channelMessages t.client o

/-- An `APIMessage` builder instance: target, options, and the two
memoized fields (both `null` after construction). -/
structure APIMessage where
  target : Target
  options : Options
  data : Option PayloadData := none
  files : Option (List ResolvedFile) := none

/-- Instance-level `resolveData`: returns immediately when `data` is
already stored, otherwise builds and stores it. -/
def resolveDataM (m : APIMessage) : Except RErr APIMessage :=
  match m.data with
  | some _ => .ok m
  | none =>
    match buildData m.target m.options with
    | .error e => .error e
    | .ok d => .ok { m with data := some d }

/-- The file-like inputs gathered by `APIMessage#resolveFiles` (source
lines 226-243): `options.files` first, then the files of each gathered
embed-like object in embed order. -/
def gatherFileLikes (isWL : Bool) (o : Options) : List FileLike :=
  o.files.getD [] ++ ((gatherEmbedLikes isWL o).map fun e => e.files.getD []).flatten

/-- Instance-level `resolveFiles`: returns immediately when `files` is
already stored, otherwise resolves every gathered file-like input and
stores the aggregate (the `Promise.all` of source line 245 is embedded
as `mapE`). -/
def resolveFilesM (loader : Attachment → Except LoadErr Nat)
    (m : APIMessage) : Except LoadErr APIMessage :=
  match m.files with
  | some _ => .ok m
  | none =>
    match mapE (resolveFileM loader) (gatherFileLikes (isWebhookLikeT m.target) m.options) with
    | .error e => .error e
    | .ok fs => .ok { m with files := some fs }

/-- A non-last split instance (source lines 267-270): a fresh instance
on the same target whose data and options carry only the chunk text, the
built `tts`, and the raw allowed-mentions option. -/
def mkNonLast (tgt : Target) (opts : Options) (d : PayloadData)
    (chunk : JStr) : APIMessage :=
  { target := tgt
    options := { content := .strC chunk
                 tts := some d.tts
                 allowedMentions := opts.allowedMentions }
    data := some { content := .strV chunk
                   tts := d.tts
                   nonce := none
                   embed := .undef
                   embeds := none
                   components := none
                   username := none
                   avatar_url := none
                   allowed_mentions := amFieldOfOpt opts.allowedMentions
                   flags := none
                   message_reference := none
                   attachments := none }
    files := none }

/-- The last split instance (source lines 264-266): a fresh instance on
the same target carrying the full original payload and options with
`content` overwritten to the chunk text. -/
def mkLast (tgt : Target) (opts : Options) (d : PayloadData)
    (chunk : JStr) : APIMessage :=
  { target := tgt
    options := { opts with content := .strC chunk }
    data := some { d with content := .strV chunk }
    files := none }

/-- The loop of source lines 260-275: one fresh instance per chunk, the
final chunk taking the full payload and every earlier chunk the minimal
one. -/
def splitInstances (tgt : Target) (opts : Options) (d : PayloadData) :
    List JStr → List APIMessage
  | [] => []
  | [c] => [mkLast tgt opts d c]
  | c :: c2 :: rest => mkNonLast tgt opts d c :: splitInstances tgt opts d (c2 :: rest)

/-- Mirrors `APIMessage#split` (source lines 253-278): the payload is
built first if needed; a non-array content yields the single original
instance; an array content yields one instance per chunk. -/
def splitM (m : APIMessage) : Except RErr (APIMessage × List APIMessage) :=
  match resolveDataM m with
  | .error e => .error e
  | .ok m' =>
    match m'.data with
    | some d =>
      (match d.content with
       | .arrV chunks => .ok (m', splitInstances m'.target m'.options d chunks)
       | _ => .ok (m', [m']))
    | none => .ok (m', [m'])

/-- Boolean test that `p` is an initial run of `l`. -/
def leadsWith (p l : JStr) : Bool := l.take p.length == p

/-- Boolean test that `s` is a final run of `l`. -/
def trailsWith (s l : JStr) : Bool := l.drop (l.length - s.length) == s

/-- A throwaway message collection for witness targets. -/
def emptyColl : MsgColl := { resolveID := fun _ => none }

/-- A default builder instance, used only as the `getD` fallback in
indexed statements. -/
def dummyMsg : APIMessage :=
  { target := { kind := .channel, messages := emptyColl,
                channelMessages := emptyColl,
                client := { allowedMentions := .undef } }
    options := {} }

/-- A plain target of the given class with empty collections and no
client default, used by concrete witnesses. -/
def mkTarget (k : TargetKind) : Target :=
  { kind := k, messages := emptyColl, channelMessages := emptyColl,
    client := { allowedMentions := .undef } }

/-- A message collection that resolves exactly the reference `42`, used
by concrete witnesses. -/
def coll42 : MsgColl :=
  { resolveID := fun r => if r = "42".toList then some ("42".toList) else none }

/-- An initial run stays an initial run of any extension on the left
operand's own list. -/
theorem leadsWith_append (p t : JStr) : leadsWith p (p ++ t) = true := by
  simp [leadsWith, List.take_left]

/-- Characterization of `leadsWith` as an existential decomposition. -/
theorem leadsWith_iff {p l : JStr} : leadsWith p l = true ↔ ∃ t, l = p ++ t := by
  constructor
  · intro h
    refine ⟨l.drop p.length, ?_⟩
    have h' : l.take p.length = p := by simpa [leadsWith] using h
    conv_lhs => rw [← List.take_append_drop p.length l]
    rw [h']
  · rintro ⟨t, rfl⟩
    exact leadsWith_append p t

/-- A list is its own initial run. -/
theorem leadsWith_self (p : JStr) : leadsWith p p = true := by
  simpa using leadsWith_append p []

/-- Extending a list on the right preserves its initial runs. -/
theorem leadsWith_mono {p l : JStr} (t : JStr) (h : leadsWith p l = true) :
    leadsWith p (l ++ t) = true := by
  rcases leadsWith_iff.mp h with ⟨u, rfl⟩
  simpa [List.append_assoc] using leadsWith_append p (u ++ t)

/-- A final run of a right operand is a final run of the whole append. -/
theorem trailsWith_append (s t : JStr) : trailsWith s (t ++ s) = true := by
  have h : (t ++ s).length - s.length = t.length := by
    simp [List.length_append]
  simp [trailsWith, h, List.drop_left]

/-- Characterization of `trailsWith` as an existential decomposition. -/
theorem trailsWith_iff {s l : JStr} : trailsWith s l = true ↔ ∃ t, l = t ++ s := by
  constructor
  · intro h
    refine ⟨l.take (l.length - s.length), ?_⟩
    have h' : l.drop (l.length - s.length) = s := by simpa [trailsWith] using h
    conv_lhs => rw [← List.take_append_drop (l.length - s.length) l]
    rw [h']
  · rintro ⟨t, rfl⟩
    exact trailsWith_append s t

/-- A list is its own final run. -/
theorem trailsWith_self (s : JStr) : trailsWith s s = true := by
  simpa using trailsWith_append s []

/-- Extending a list on the left preserves its final runs. -/
theorem trailsWith_mono {s l : JStr} (t : JStr) (h : trailsWith s l = true) :
    trailsWith s (t ++ l) = true := by
  rcases trailsWith_iff.mp h with ⟨u, rfl⟩
  simpa [List.append_assoc] using trailsWith_append s (t ++ u)

/-- On a non-empty list `getLastD` does not depend on the default. -/
theorem getLastD_irrel {α : Type} {l : List α} (h : l ≠ []) (d d' : α) :
    l.getLastD d = l.getLastD d' := by
  cases l with
  | nil => exact absurd rfl h
  | cons a t => simp only [List.getLastD_cons]

/-- A non-empty character list is not `isEmpty`. -/
theorem isEmpty_false_of_ne_nil {s : JStr} (h : s ≠ []) : s.isEmpty = false := by
  cases s with
  | nil => exact absurd rfl h
  | cons a t => rfl

/-- Splitting never yields the empty list of pieces. -/
theorem splitOnChar_ne_nil (c : Char) (l : List Char) : splitOnChar c l ≠ [] := by
  induction l with
  | nil => simp [splitOnChar]
  | cons x xs ih =>
    simp only [splitOnChar]
    cases h : splitOnChar c xs with
    | nil => simp
    | cons h1 t1 =>
      by_cases hx : x = c <;> simp [hx]

/-- A list free of the boundary character splits into itself alone. -/
theorem splitOnChar_of_not_mem {c : Char} {l : List Char} (h : c ∉ l) :
    splitOnChar c l = [l] := by
  induction l with
  | nil => simp [splitOnChar]
  | cons x xs ih =>
    have hx : ¬ x = c := fun he => h (by simp [he])
    have hxs : c ∉ xs := fun hm => h (List.mem_cons_of_mem _ hm)
    simp only [splitOnChar, ih hxs]
    simp [hx]

/-- Splitting an append whose left part is boundary-free peels the left
part off as the first piece. -/
theorem splitOnChar_append_cons {c : Char} {a : List Char} (b : List Char)
    (h : c ∉ a) : splitOnChar c (a ++ c :: b) = a :: splitOnChar c b := by
  induction a with
  | nil =>
    simp only [List.nil_append, splitOnChar]
    cases hb : splitOnChar c b with
    | nil => exact absurd hb (splitOnChar_ne_nil c b)
    | cons h1 t1 => simp
  | cons x xs ih =>
    have hx : ¬ x = c := fun he => h (by simp [he])
    have hxs : c ∉ xs := fun hm => h (List.mem_cons_of_mem _ hm)
    simp only [List.cons_append, splitOnChar, List.append_eq]
    rw [ih hxs]
    simp [hx]

/-- A list containing the boundary character splits into at least two
pieces. -/
theorem two_le_splitOnChar_length {c : Char} {l : List Char} (h : c ∈ l) :
    2 ≤ (splitOnChar c l).length := by
  induction l with
  | nil => cases h
  | cons x xs ih =>
    simp only [splitOnChar]
    cases hxs : splitOnChar c xs with
    | nil => exact absurd hxs (splitOnChar_ne_nil c xs)
    | cons h1 t1 =>
      by_cases hx : x = c
      · simp [hx]
      · have hm : c ∈ xs := by
          rcases List.mem_cons.mp h with he | hm
          · exact absurd he.symm hx
          · exact hm
        have h2 := ih hm
        rw [hxs] at h2
        simp only [List.length_cons] at h2 ⊢
        simp [hx]
        omega

/-- The last piece of a split is determined by the part after the last
explicit boundary shown. -/
theorem getLastD_splitOnChar_append {c : Char} (a b : List Char) :
    (splitOnChar c (a ++ c :: b)).getLastD [] = (splitOnChar c b).getLastD [] := by
  induction a with
  | nil =>
    simp only [List.nil_append, splitOnChar]
    cases hb : splitOnChar c b with
    | nil => exact absurd hb (splitOnChar_ne_nil c b)
    | cons h1 t1 => simp [List.getLastD_cons]
  | cons x xs ih =>
    simp only [List.cons_append, splitOnChar]
    cases hxs : splitOnChar c (xs ++ c :: b) with
    | nil => exact absurd hxs (splitOnChar_ne_nil _ _)
    | cons h1 t1 =>
      have hlen : 2 ≤ (splitOnChar c (xs ++ c :: b)).length :=
        two_le_splitOnChar_length (by simp)
      rw [hxs] at hlen
      have ht1 : t1 ≠ [] := by
        intro he
        rw [he] at hlen
        simp at hlen
      rw [hxs] at ih
      by_cases hx : x = c
      · simpa [hx, List.getLastD_cons] using ih
      · simp only [if_neg hx, List.getLastD_cons] at ih ⊢
        rw [getLastD_irrel ht1 (x :: h1) h1]
        exact ih

/-- The greedy re-packer always emits at least one chunk. -/
theorem splitRun_ne_nil (maxLen : Nat) (ch : Char) (pre app : JStr)
    (ps : List JStr) (cur : JStr) : splitRun maxLen ch pre app ps cur ≠ [] := by
  induction ps generalizing cur with
  | nil => simp [splitRun]
  | cons p ps ih =>
    simp only [splitRun]
    by_cases h : maxLen < (cur ++ ch :: p ++ app).length
    · rw [if_pos h]
      simp
    · rw [if_neg h]
      exact ih _

/-- If every pending piece fits together with the configured prepend and
append, and the chunk under construction still has room for the append,
then every emitted chunk stays within the limit. -/
theorem splitRun_length_le (maxLen : Nat) (ch : Char) (pre app : JStr) :
    ∀ (ps : List JStr) (cur : JStr),
      (∀ q ∈ ps, pre.length + q.length + app.length ≤ maxLen) →
      cur.length + app.length ≤ maxLen →
      ∀ k ∈ splitRun maxLen ch pre app ps cur, k.length ≤ maxLen := by
  intro ps
  induction ps with
  | nil =>
    intro cur _ hcur k hk
    simp [splitRun] at hk
    subst hk
    omega
  | cons p ps ih =>
    intro cur hpieces hcur k hk
    simp only [splitRun] at hk
    by_cases h : maxLen < (cur ++ ch :: p ++ app).length
    · rw [if_pos h] at hk
      rcases List.mem_cons.mp hk with hk0 | hk'
      · subst hk0
        have hlen : (cur ++ app).length = cur.length + app.length :=
          List.length_append _ _
        omega
      · have hp := hpieces p (by simp)
        refine ih (pre ++ p) (fun q hq => hpieces q (by simp [hq])) ?_ k hk'
        have hlen : (pre ++ p).length = pre.length + p.length :=
          List.length_append _ _
        omega
    · rw [if_neg h] at hk
      have h2 : (cur ++ ch :: p ++ app).length
          = (cur ++ ch :: p).length + app.length := by
        simp [List.length_append]
        omega
      refine ih (cur ++ ch :: p) (fun q hq => hpieces q (by simp [hq])) ?_ k hk
      omega

/-- If the configured prepend and the chunk under construction both open
with a given run, every emitted chunk opens with that run. -/
theorem splitRun_leadsWith (maxLen : Nat) (ch : Char) (pre app fo : JStr)
    (hpre : leadsWith fo pre = true) :
    ∀ (ps : List JStr) (cur : JStr), leadsWith fo cur = true →
      ∀ k ∈ splitRun maxLen ch pre app ps cur, leadsWith fo k = true := by
  intro ps
  induction ps with
  | nil =>
    intro cur hcur k hk
    simp [splitRun] at hk
    subst hk
    exact hcur
  | cons p ps ih =>
    intro cur hcur k hk
    simp only [splitRun] at hk
    by_cases h : maxLen < (cur ++ ch :: p ++ app).length
    · rw [if_pos h] at hk
      rcases List.mem_cons.mp hk with hk0 | hk'
      · subst hk0
        exact leadsWith_mono app hcur
      · exact ih (pre ++ p) (leadsWith_mono p hpre) k hk'
    · rw [if_neg h] at hk
      exact ih (cur ++ ch :: p) (leadsWith_mono (ch :: p) hcur) k hk

/-- If the configured append closes with a given run, and so does the
final pending piece (or, when none is pending, the chunk under
construction), then every emitted chunk closes with that run. -/
theorem splitRun_trailsWith (maxLen : Nat) (ch : Char) (pre app w : JStr)
    (happ : trailsWith w app = true) :
    ∀ (ps : List JStr) (cur : JStr),
      (ps ≠ [] → trailsWith w (ps.getLastD []) = true) →
      (ps = [] → trailsWith w cur = true) →
      ∀ k ∈ splitRun maxLen ch pre app ps cur, trailsWith w k = true := by
  intro ps
  induction ps with
  | nil =>
    intro cur _ hcur k hk
    simp [splitRun] at hk
    subst hk
    exact hcur rfl
  | cons p ps ih =>
    intro cur hlast _ k hk
    simp only [splitRun] at hk
    have hlast' : ps ≠ [] → trailsWith w (ps.getLastD []) = true := by
      intro hne
      have h1 := hlast (by simp)
      rw [List.getLastD_cons] at h1
      rwa [getLastD_irrel hne p []] at h1
    have hplast : ps = [] → trailsWith w p = true := by
      intro he
      have h1 := hlast (by simp)
      rw [he] at h1
      simpa [List.getLastD_cons] using h1
    by_cases h : maxLen < (cur ++ ch :: p ++ app).length
    · rw [if_pos h] at hk
      rcases List.mem_cons.mp hk with hk0 | hk'
      · subst hk0
        exact trailsWith_mono cur happ
      · refine ih (pre ++ p) hlast' ?_ k hk'
        intro he
        exact trailsWith_mono pre (hplast he)
    · rw [if_neg h] at hk
      refine ih (cur ++ ch :: p) hlast' ?_ k hk
      intro he
      have h2 := trailsWith_mono (cur ++ [ch]) (hplast he)
      simpa [List.append_assoc] using h2

/-- When every element resolves, the aggregation succeeds with exactly
the image list, in declaration order. -/
theorem mapE_ok_of_all {α β ε : Type} (h : α → Except ε β) (g : α → β) :
    ∀ l : List α, (∀ a ∈ l, h a = .ok (g a)) → mapE h l = .ok (l.map g) := by
  intro l
  induction l with
  | nil => intro _; rfl
  | cons a l ih =>
    intro hall
    have ha := hall a (by simp)
    simp only [mapE, ha]
    rw [ih fun b hb => hall b (by simp [hb])]
    rfl

/-- When any element fails, the aggregation fails and produces no
list. -/
theorem mapE_error_of_mem {α β ε : Type} (h : α → Except ε β) :
    ∀ (l : List α) (a : α) (e : ε), a ∈ l → h a = .error e →
      ∃ e', mapE h l = .error e' := by
  intro l
  induction l with
  | nil =>
    intro a e ha _
    cases ha
  | cons b l ih =>
    intro a e ha he
    rcases List.mem_cons.mp ha with rfl | ha'
    · exact ⟨e, by simp [mapE, he]⟩
    · cases hb : h b with
      | error e0 => exact ⟨e0, by simp [mapE, hb]⟩
      | ok v =>
        rcases ih a e ha' he with ⟨e', hl⟩
        exact ⟨e', by simp [mapE, hb, hl]⟩

/-- The split loop produces one instance per chunk. -/
theorem splitInstances_length (tgt : Target) (opts : Options)
    (d : PayloadData) :
    ∀ cs : List JStr, (splitInstances tgt opts d cs).length = cs.length := by
  intro cs
  induction cs with
  | nil => rfl
  | cons c cs ih =>
    cases cs with
    | nil => rfl
    | cons c2 rest =>
      simp only [splitInstances, List.length_cons]
      rw [ih]
      simp

/-- Every instance before the final one is the minimal instance of its
chunk. -/
theorem splitInstances_getD_of_lt (tgt : Target) (opts : Options)
    (d : PayloadData) :
    ∀ (cs : List JStr) (i : Nat), i + 1 < cs.length →
      (splitInstances tgt opts d cs).getD i dummyMsg
        = mkNonLast tgt opts d (cs.getD i []) := by
  intro cs
  induction cs with
  | nil =>
    intro i h
    simp at h
  | cons c cs ih =>
    intro i h
    cases cs with
    | nil => simp at h
    | cons c2 rest =>
      cases i with
      | zero => rfl
      | succ j =>
        have h' : j + 1 < (c2 :: rest).length := by
          simpa using Nat.lt_of_succ_lt_succ h
        have := ih j h'
        simpa [splitInstances, List.getD_cons_succ] using this

/-- The final instance is the full-payload instance of the final
chunk. -/
theorem splitInstances_getD_last (tgt : Target) (opts : Options)
    (d : PayloadData) :
    ∀ cs : List JStr, cs ≠ [] →
      (splitInstances tgt opts d cs).getD (cs.length - 1) dummyMsg
        = mkLast tgt opts d (cs.getD (cs.length - 1) []) := by
  intro cs
  induction cs with
  | nil =>
    intro h
    exact absurd rfl h
  | cons c cs ih =>
    intro _
    cases cs with
    | nil => rfl
    | cons c2 rest =>
      have ih' := ih (by simp)
      simp only [splitInstances, List.length_cons] at ih' ⊢
      simpa [List.getD_cons_succ] using ih'

/-- A successful build is the payload literal over some validated
content and nonce. -/
theorem buildData_ok_cases (t : Target) (o : Options) (d : PayloadData)
    (h : buildData t o = .ok d) :
    ∃ content nonce,
      makeContent o.content o.code o.split = .ok content ∧
      nonceCheck o.nonce = .ok nonce ∧
      d = mkPayload (isWebhookT t) (isInteractionT t) (isMessageT t)
        t.name t.flagsBitfield t.messages t.channelMessages t.client o
        content nonce := by
  unfold buildData buildCore at h
  cases hmc : makeContent o.content o.code o.split with
  | error e =>
    rw [hmc] at h
    exact absurd h (by simp)
  | ok content =>
    rw [hmc] at h
    cases hnc : nonceCheck o.nonce with
    | error e =>
      rw [hnc] at h
      exact absurd h (by simp)
    | ok nonce =>
      rw [hnc] at h
      refine ⟨content, nonce, rfl, rfl, ?_⟩
      simpa using h.symm

/-- Validated content and nonce make the build succeed with the payload
literal. -/
theorem buildData_ok_of (t : Target) (o : Options) (content : ContentVal)
    (nonce : Option NonceVal)
    (hmc : makeContent o.content o.code o.split = .ok content)
    (hnc : nonceCheck o.nonce = .ok nonce) :
    buildData t o = .ok (mkPayload (isWebhookT t) (isInteractionT t)
      (isMessageT t) t.name t.flagsBitfield t.messages t.channelMessages
      t.client o content nonce) := by
  unfold buildData buildCore
  rw [hmc, hnc]

/-- A built content value is flagged undefined exactly when it is the
undefined constructor. -/
theorem contentUndef_iff (c : ContentVal) :
    contentUndef c = true ↔ c = ContentVal.undef := by
  cases c <;> simp [contentUndef]

/-- C2: for every options value, the content formatter maps an
explicitly null `content` to the empty string and an absent `content`
to undefined (so it is omitted from the payload). -/
theorem c2_null_and_absent_content (o : Options) :
    (o.content = ContentOpt.nullC →
      makeContent o.content o.code o.split = .ok (.strV [])) ∧
    (o.content = ContentOpt.undef →
      makeContent o.content o.code o.split = .ok .undef) := by
  constructor <;> intro h <;> rw [h] <;> rfl

/-- Witness for C2 at concrete option bags. -/
theorem c2_null_and_absent_content_witness :
    makeContent ContentOpt.nullC CodeOpt.undef SplitOpt.undef
        = .ok (.strV []) ∧
    makeContent ContentOpt.undef CodeOpt.undef SplitOpt.undef
        = .ok .undef :=
  ⟨(c2_null_and_absent_content { content := ContentOpt.nullC }).1 rfl,
   (c2_null_and_absent_content { content := ContentOpt.undef }).2 rfl⟩

/-- C1: a built payload for a webhook-like (webhook or interaction)
target always carries an `embeds` array and an undefined `embed`; for
every other target `embeds` is undefined (so the two fields are never
both populated, the dialect fixing which one is legal). -/
theorem c1_embed_dialect_invariant (t : Target) (o : Options)
    (d : PayloadData) (h : buildData t o = .ok d) :
    (isWebhookLikeT t = true →
      d.embed = EmbedField.undef ∧ ∃ l, d.embeds = some l) ∧
    (isWebhookLikeT t = false → d.embeds = none) := by
  rcases buildData_ok_cases t o d h with ⟨content, nonce, _, _, rfl⟩
  have hWL : isWebhookLikeT t = (isInteractionT t || isWebhookT t) := rfl
  constructor
  · intro hW
    rw [hWL] at hW
    constructor
    · simp [mkPayload, hW]
    · exact ⟨(gatherEmbedLikes true o).map embedToWire, by simp [mkPayload, hW]⟩
  · intro hW
    rw [hWL] at hW
    simp [mkPayload, hW]

/-- Witness for C1 on a webhook target and a channel target. -/
theorem c1_embed_dialect_invariant_witness :
    (∃ d, buildData (mkTarget .webhook) {} = .ok d ∧
      d.embed = EmbedField.undef ∧ ∃ l, d.embeds = some l) ∧
    (∃ d, buildData (mkTarget .channel) {} = .ok d ∧ d.embeds = none) := by
  constructor
  · exact ⟨_, rfl, (c1_embed_dialect_invariant (mkTarget .webhook) {} _ rfl).1 rfl⟩
  · exact ⟨_, rfl, (c1_embed_dialect_invariant (mkTarget .channel) {} _ rfl).2 rfl⟩

/-- C8: the `flags` field of a built payload: a message-dialect target
takes the explicit `flags` option when present and otherwise inherits
the target message's bitfield; an interaction-dialect target with
truthy `ephemeral` and no explicit flags gets exactly the ephemeral
bit; every other dialect leaves `flags` unset whatever `ephemeral`
is. -/
theorem c8_flags_by_dialect (t : Target) (o : Options) (d : PayloadData)
    (h : buildData t o = .ok d) :
    (isMessageT t = true →
      (∀ n, o.flags = some n → d.flags = some (flagsResolve n)) ∧
      (o.flags = none → d.flags = some t.flagsBitfield)) ∧
    (isMessageT t = false → isInteractionT t = true →
      o.ephemeral = some true → o.flags = none →
      d.flags = some ephemeralFlag) ∧
    (isMessageT t = false → isInteractionT t = false → d.flags = none) := by
  rcases buildData_ok_cases t o d h with ⟨content, nonce, _, _, rfl⟩
  refine ⟨?_, ?_, ?_⟩
  · intro hM
    constructor
    · intro n hn
      simp [mkPayload, hM, hn]
    · intro hn
      simp [mkPayload, hM, hn]
  · intro hM hI he _
    simp [mkPayload, hM, hI, he]
  · intro hM hI
    simp [mkPayload, hM, hI]

/-- Witness for C8: a message target with explicit flags, an ephemeral
interaction target, and a plain channel target with `ephemeral` set. -/
theorem c8_flags_by_dialect_witness :
    (∃ d, buildData (mkTarget .message) { flags := some 4 } = .ok d ∧
      d.flags = some (flagsResolve 4)) ∧
    (∃ d, buildData (mkTarget .interaction) { ephemeral := some true } = .ok d ∧
      d.flags = some ephemeralFlag) ∧
    (∃ d, buildData (mkTarget .channel) { ephemeral := some true } = .ok d ∧
      d.flags = none) := by
  refine ⟨⟨_, rfl, ?_⟩, ⟨_, rfl, ?_⟩, ⟨_, rfl, ?_⟩⟩
  · exact ((c8_flags_by_dialect (mkTarget .message) { flags := some 4 } _ rfl).1 rfl).1 4 rfl
  · exact (c8_flags_by_dialect (mkTarget .interaction) { ephemeral := some true } _ rfl).2.1
      rfl rfl rfl rfl
  · exact (c8_flags_by_dialect (mkTarget .channel) { ephemeral := some true } _ rfl).2.2 rfl rfl

/-- C4 counterexample: with content `"hi"`, no explicit allowed-mentions
option and no client default, the built `allowed_mentions` is undefined
although the built content is defined — so "undefined exactly when both
content and message_reference are undefined" fails in the only-if
direction. -/
theorem c4_allowed_mentions_iff_counterexample :
    ∃ d, buildData (mkTarget .channel) { content := .strC "hi".toList }
        = .ok d ∧
      d.allowed_mentions = AMField.undef ∧
      d.content ≠ ContentVal.undef ∧ d.message_reference = none := by
  refine ⟨_, rfl, ?_, ?_, ?_⟩
  · rfl
  · intro h
    simp [buildData, buildCore, mkPayload, makeContent] at h
  · rfl

/-- C4 (amended): the selection takes the explicit option when present
and the client default otherwise; a selected object is renamed to the
wire shape (`replied_user`, no `repliedUser` key); the field is
undefined whenever both the built content and the resolved
message reference are undefined, and otherwise equals the renamed
selected value (which may itself still be undefined when neither an
explicit option nor a client default exists). -/
theorem c4_allowed_mentions_amended (t : Target) (o : Options)
    (d : PayloadData) (h : buildData t o = .ok d) :
    ((o.allowedMentions ≠ AMVal.undef →
        selMentions t.client o = o.allowedMentions) ∧
     (o.allowedMentions = AMVal.undef →
        selMentions t.client o = t.client.allowedMentions)) ∧
    (d.content = ContentVal.undef ∧ d.message_reference = none →
      d.allowed_mentions = AMField.undef) ∧
    (¬(d.content = ContentVal.undef ∧ d.message_reference = none) →
      d.allowed_mentions = renameMentions (selMentions t.client o)) ∧
    (∀ a, selMentions t.client o = AMVal.obj a →
      ¬(d.content = ContentVal.undef ∧ d.message_reference = none) →
      d.allowed_mentions
        = AMField.wire { replied_user := a.repliedUser, rest := a.rest }) := by
  rcases buildData_ok_cases t o d h with ⟨content, nonce, _, _, rfl⟩
  have hsel : (o.allowedMentions ≠ AMVal.undef →
      selMentions t.client o = o.allowedMentions) ∧
      (o.allowedMentions = AMVal.undef →
        selMentions t.client o = t.client.allowedMentions) := by
    constructor
    · intro hne
      cases hv : o.allowedMentions with
      | undef => exact absurd hv hne
      | nullv => simp [selMentions, hv]
      | obj a => simp [selMentions, hv]
    · intro hu
      simp [selMentions, hu]
  have hcontent : (mkPayload (isWebhookT t) (isInteractionT t) (isMessageT t)
      t.name t.flagsBitfield t.messages t.channelMessages t.client o
      content nonce).content = content := by
    simp [mkPayload]
  have hmref : (mkPayload (isWebhookT t) (isInteractionT t) (isMessageT t)
      t.name t.flagsBitfield t.messages t.channelMessages t.client o
      content nonce).message_reference
      = resolveReference (isMessageT t) t.messages t.channelMessages o := by
    simp [mkPayload]
  refine ⟨hsel, ?_, ?_, ?_⟩
  · rintro ⟨h1, h2⟩
    rw [hcontent] at h1
    rw [hmref] at h2
    simp [mkPayload, h1, h2, contentUndef]
  · intro hne
    rw [hcontent, hmref] at hne
    have hcond : (contentUndef content
        && (resolveReference (isMessageT t) t.messages t.channelMessages o).isNone)
        = false := by
      cases hc : contentUndef content with
      | false => simp
      | true =>
        have h1 : content = ContentVal.undef := (contentUndef_iff content).mp hc
        cases hres : resolveReference (isMessageT t) t.messages t.channelMessages o with
        | none => exact absurd ⟨h1, hres⟩ hne
        | some v => simp [hres]
    simp [mkPayload, hcond]
  · intro a ha hne
    rw [hcontent, hmref] at hne
    have hcond : (contentUndef content
        && (resolveReference (isMessageT t) t.messages t.channelMessages o).isNone)
        = false := by
      cases hc : contentUndef content with
      | false => simp
      | true =>
        have h1 : content = ContentVal.undef := (contentUndef_iff content).mp hc
        cases hres : resolveReference (isMessageT t) t.messages t.channelMessages o with
        | none => exact absurd ⟨h1, hres⟩ hne
        | some v => simp [hres]
    simp [mkPayload, hcond, ha, renameMentions]

/-- Witness for C4 (amended): explicit `{repliedUser: true}` with
content present is renamed to `{replied_user: true}`. -/
theorem c4_allowed_mentions_amended_witness :
    ∃ d, buildData (mkTarget .channel)
        { content := .strC "hi".toList,
          allowedMentions := AMVal.obj { repliedUser := some true, rest := 0 } }
        = .ok d ∧
      d.allowed_mentions
        = AMField.wire { replied_user := some true, rest := 0 } := by
  refine ⟨_, rfl, ?_⟩
  exact (c4_allowed_mentions_amended (mkTarget .channel)
      { content := .strC "hi".toList,
        allowedMentions := AMVal.obj { repliedUser := some true, rest := 0 } }
      _ rfl).2.2.2 { repliedUser := some true, rest := 0 } rfl
    (by
      intro hc
      have := hc.1
      simp [buildData, buildCore, mkPayload, makeContent] at this)

/-- C5: with an object `reply` option, the reference is resolved through
the appropriate message collection (the channel's collection for a
message-dialect target, the target's own otherwise); a resolved
(non-empty) identifier yields `{message_id, fail_if_not_exists}` with
the flag defaulting to `true` when `failIfNotExists` is absent; an
unresolvable reference leaves `message_reference` undefined and raises
no error. -/
theorem c5_reply_resolution (t : Target) (o : Options) (r : ReplyOpt)
    (hr : o.reply = some r)
    (hmc : ∃ cv, makeContent o.content o.code o.split = .ok cv)
    (hnc : ∃ nv, nonceCheck o.nonce = .ok nv) :
    ∃ d, buildData t o = .ok d ∧
      (∀ i, (if isMessageT t then t.channelMessages else t.messages).resolveID
            r.messageReference = some i → i ≠ [] →
        d.message_reference
          = some { message_id := i,
                   fail_if_not_exists := r.failIfNotExists.getD true }) ∧
      ((if isMessageT t then t.channelMessages else t.messages).resolveID
            r.messageReference = none →
        d.message_reference = none) := by
  rcases hmc with ⟨cv, hmc⟩
  rcases hnc with ⟨nv, hnc⟩
  refine ⟨_, buildData_ok_of t o cv nv hmc hnc, ?_, ?_⟩
  · intro i hi hne
    simp only [mkPayload, resolveReference, hr, hi]
    simp [isEmpty_false_of_ne_nil hne]
  · intro hi
    simp [mkPayload, resolveReference, hr, hi]

/-- Witness for C5: the collection resolving exactly `"42"` attaches the
reference with the default flag; an unresolvable reference is dropped
without error. -/
theorem c5_reply_resolution_witness :
    (∃ d, buildData
        { kind := TargetKind.channel, messages := coll42,
          channelMessages := emptyColl,
          client := { allowedMentions := AMVal.undef } }
        { reply := some { messageReference := "42".toList,
                          failIfNotExists := none } } = .ok d ∧
      d.message_reference
        = some { message_id := "42".toList, fail_if_not_exists := true }) ∧
    (∃ d, buildData (mkTarget .channel)
        { reply := some { messageReference := "7".toList,
                          failIfNotExists := none } } = .ok d ∧
      d.message_reference = none) := by
  constructor
  · rcases c5_reply_resolution
        { kind := TargetKind.channel, messages := coll42,
          channelMessages := emptyColl,
          client := { allowedMentions := AMVal.undef } }
        { reply := some { messageReference := "42".toList,
                          failIfNotExists := none } }
        { messageReference := "42".toList, failIfNotExists := none }
        rfl ⟨ContentVal.undef, rfl⟩ ⟨none, rfl⟩ with ⟨d, hd, h1, _⟩
    exact ⟨d, hd, by simpa using h1 ("42".toList) (by rfl) (by decide)⟩
  · rcases c5_reply_resolution (mkTarget .channel)
        { reply := some { messageReference := "7".toList,
                          failIfNotExists := none } }
        { messageReference := "7".toList, failIfNotExists := none }
        rfl ⟨ContentVal.undef, rfl⟩ ⟨none, rfl⟩ with ⟨d, hd, _, h2⟩
    exact ⟨d, hd, by simpa using h2 (by rfl)⟩

/-- A successful instance-level build stores data, preserves target,
options and files, and is the identity on an already-built instance. -/
theorem resolveDataM_ok_props (m m' : APIMessage)
    (h : resolveDataM m = .ok m') :
    (∃ d, m'.data = some d) ∧ m'.target = m.target ∧
      m'.options = m.options ∧ m'.files = m.files ∧
      (∀ d, m.data = some d → m' = m) := by
  unfold resolveDataM at h
  cases hm : m.data with
  | some d =>
    rw [hm] at h
    have h' : m = m' := by simpa using h
    subst h'
    exact ⟨⟨d, hm⟩, rfl, rfl, rfl, fun _ _ => rfl⟩
  | none =>
    rw [hm] at h
    cases hb : buildData m.target m.options with
    | error e =>
      rw [hb] at h
      exact absurd h (by simp)
    | ok d =>
      rw [hb] at h
      have h' : { m with data := some d } = m' := by simpa using h
      subst h'
      refine ⟨⟨d, rfl⟩, rfl, rfl, rfl, ?_⟩
      intro d0 hd0
      exact absurd hd0 (by simp)

/-- An instance whose data is stored resolves to itself. -/
theorem resolveDataM_of_some (m : APIMessage) (d : PayloadData)
    (h : m.data = some d) : resolveDataM m = .ok m := by
  unfold resolveDataM
  rw [h]

/-- Splitting an instance that resolves to `mr` with stored data `d`
yields `mr` and the chunk instances determined by `d.content`. -/
theorem splitM_eq (m mr : APIMessage) (d : PayloadData)
    (hr : resolveDataM m = .ok mr) (hd : mr.data = some d) :
    splitM m = .ok (mr,
      match d.content with
      | ContentVal.arrV chunks => splitInstances mr.target mr.options d chunks
      | _ => [mr]) := by
  simp only [splitM, hr]
  simp only [hd]
  cases d.content <;> rfl

/-- C9: `data` and `files` are memoized — resolving an already-resolved
instance returns it unchanged — and therefore splitting twice yields
equal results; split leaves the original's target and options intact,
preserves already-computed data, and returns the original unchanged when
its data was already computed. -/
theorem c9_memoization_idempotence
    (loader : Attachment → Except LoadErr Nat)
    (m m₁ m₂ m' : APIMessage) (r : List APIMessage) :
    (resolveDataM m = .ok m₁ → resolveDataM m₁ = .ok m₁) ∧
    (resolveFilesM loader m = .ok m₂ → resolveFilesM loader m₂ = .ok m₂) ∧
    (splitM m = .ok (m', r) →
      splitM m' = .ok (m', r) ∧ m'.target = m.target ∧
        m'.options = m.options ∧ (∀ d, m.data = some d → m' = m)) := by
  refine ⟨?_, ?_, ?_⟩
  · intro h
    rcases (resolveDataM_ok_props m m₁ h).1 with ⟨d, hd⟩
    exact resolveDataM_of_some m₁ d hd
  · intro h
    unfold resolveFilesM at h ⊢
    cases hm : m.files with
    | some fs =>
      rw [hm] at h
      have h' : m = m₂ := by simpa using h
      subst h'
      rw [hm]
    | none =>
      rw [hm] at h
      cases hmap : mapE (resolveFileM loader)
          (gatherFileLikes (isWebhookLikeT m.target) m.options) with
      | error e =>
        rw [hmap] at h
        exact absurd h (by simp)
      | ok fs =>
        rw [hmap] at h
        have h' : { m with files := some fs } = m₂ := by simpa using h
        subst h'
        rfl
  · intro h
    cases hr : resolveDataM m with
    | error e =>
      unfold splitM at h
      rw [hr] at h
      exact absurd h (by simp)
    | ok mr =>
      rcases resolveDataM_ok_props m mr hr with ⟨⟨d, hd⟩, htg, hop, _, hkeep⟩
      have hsplit := splitM_eq m mr d hr hd
      rw [hsplit] at h
      simp only [Except.ok.injEq, Prod.mk.injEq] at h
      rcases h with ⟨h1, h2⟩
      subst h1
      have hself := splitM_eq mr mr d (resolveDataM_of_some mr d hd) hd
      refine ⟨by rw [hself, h2], htg, hop, ?_⟩
      intro d0 hd0
      exact hkeep d0 hd0

/-- Witness for C9 on a concrete instance with string content. -/
theorem c9_memoization_idempotence_witness :
    ∃ m₁ m₂ m' r,
      resolveDataM { target := mkTarget .channel,
                     options := { content := .strC "hi".toList } } = .ok m₁ ∧
      resolveDataM m₁ = .ok m₁ ∧
      resolveFilesM (fun _ => .ok 0)
          { target := mkTarget .channel,
            options := { content := .strC "hi".toList } } = .ok m₂ ∧
      resolveFilesM (fun _ => .ok 0) m₂ = .ok m₂ ∧
      splitM { target := mkTarget .channel,
               options := { content := .strC "hi".toList } } = .ok (m', r) ∧
      splitM m' = .ok (m', r) := by
  refine ⟨_, _, _, _, rfl, ?_, rfl, ?_, rfl, ?_⟩
  · exact (c9_memoization_idempotence (fun _ => .ok 0)
      { target := mkTarget .channel,
        options := { content := .strC "hi".toList } }
      _ dummyMsg dummyMsg []).1 rfl
  · exact (c9_memoization_idempotence (fun _ => .ok 0)
      { target := mkTarget .channel,
        options := { content := .strC "hi".toList } }
      dummyMsg _ dummyMsg []).2.1 rfl
  · exact ((c9_memoization_idempotence (fun _ => .ok 0)
      { target := mkTarget .channel,
        options := { content := .strC "hi".toList } }
      dummyMsg dummyMsg _ _).2.2 rfl).1

/-- C3: when the built content is a multi-chunk array, split returns one
fresh instance per chunk bound to the same target: every non-last chunk
gets the minimal instance (only content, tts and the raw
allowed-mentions option; no embeds, components or attachments) and the
last chunk gets the full original payload and options with `content`
overwritten; when the built content is not an array, split returns the
single original instance (unchanged whenever its data was already
built). -/
theorem c3_split_chunk_structure :
    (∀ (m mr : APIMessage) (d : PayloadData) (chunks : List JStr),
      resolveDataM m = .ok mr → mr.data = some d →
      d.content = ContentVal.arrV chunks → 2 ≤ chunks.length →
      ∃ lst, splitM m = .ok (mr, lst) ∧ lst.length = chunks.length ∧
        (∀ i, i + 1 < chunks.length →
          lst.getD i dummyMsg
            = mkNonLast mr.target mr.options d (chunks.getD i [])) ∧
        lst.getD (chunks.length - 1) dummyMsg
          = mkLast mr.target mr.options d (chunks.getD (chunks.length - 1) [])) ∧
    (∀ (m mr : APIMessage) (d : PayloadData),
      resolveDataM m = .ok mr → mr.data = some d →
      (∀ l, d.content ≠ ContentVal.arrV l) →
      splitM m = .ok (mr, [mr]) ∧ (∀ d₀, m.data = some d₀ → mr = m)) := by
  constructor
  · intro m mr d chunks hr hd hc hlen
    have hsplit := splitM_eq m mr d hr hd
    rw [hc] at hsplit
    refine ⟨splitInstances mr.target mr.options d chunks, hsplit, ?_, ?_, ?_⟩
    · exact splitInstances_length mr.target mr.options d chunks
    · intro i hi
      exact splitInstances_getD_of_lt mr.target mr.options d chunks i hi
    · have hne : chunks ≠ [] := by
        intro he
        rw [he] at hlen
        simp at hlen
      exact splitInstances_getD_last mr.target mr.options d chunks hne
  · intro m mr d hr hd hc
    have hsplit := splitM_eq m mr d hr hd
    have hkeep := (resolveDataM_ok_props m mr hr).2.2.2.2
    cases hcv : d.content with
    | arrV l => exact absurd hcv (hc l)
    | undef =>
      rw [hcv] at hsplit
      exact ⟨hsplit, hkeep⟩
    | strV s =>
      rw [hcv] at hsplit
      exact ⟨hsplit, hkeep⟩

/-- Witness for C3: a three-chunk split instance and a plain string
instance. -/
theorem c3_split_chunk_structure_witness :
    (∃ mr lst, splitM
        { target := mkTarget .channel,
          options := { content := .strC "aaa\nbbb".toList,
                       code := .lang "js".toList,
                       split := .cfg { maxLength := some 15 } } }
          = .ok (mr, lst) ∧ lst.length = 3) ∧
    splitM { target := mkTarget .channel,
             options := { content := .strC "hi".toList },
             data := some (mkPayload false false false none 0 emptyColl
               emptyColl { allowedMentions := .undef }
               { content := .strC "hi".toList } (ContentVal.strV "hi".toList)
               none) }
      = .ok
        ({ target := mkTarget .channel,
           options := { content := .strC "hi".toList },
           data := some (mkPayload false false false none 0 emptyColl
             emptyColl { allowedMentions := .undef }
             { content := .strC "hi".toList } (ContentVal.strV "hi".toList)
             none) },
         [{ target := mkTarget .channel,
            options := { content := .strC "hi".toList },
            data := some (mkPayload false false false none 0 emptyColl
              emptyColl { allowedMentions := .undef }
              { content := .strC "hi".toList } (ContentVal.strV "hi".toList)
              none) }]) := by
  constructor
  · rcases (c3_split_chunk_structure.1
        { target := mkTarget .channel,
          options := { content := .strC "aaa\nbbb".toList,
                       code := .lang "js".toList,
                       split := .cfg { maxLength := some 15 } } }
        _ _ ["```js\naaa\n```".toList, "```js\nbbb\n```".toList,
             "```js\n```".toList]
        rfl rfl rfl (by decide)) with ⟨lst, hs, hlen, _, _⟩
    exact ⟨_, lst, hs, hlen.trans (by rfl)⟩
  · exact (c3_split_chunk_structure.2
      { target := mkTarget .channel,
        options := { content := .strC "hi".toList },
        data := some (mkPayload false false false none 0 emptyColl
          emptyColl { allowedMentions := .undef }
          { content := .strC "hi".toList } (ContentVal.strV "hi".toList)
          none) }
      { target := mkTarget .channel,
        options := { content := .strC "hi".toList },
        data := some (mkPayload false false false none 0 emptyColl
          emptyColl { allowedMentions := .undef }
          { content := .strC "hi".toList } (ContentVal.strV "hi".toList)
          none) }
      (mkPayload false false false none 0 emptyColl
        emptyColl { allowedMentions := .undef }
        { content := .strC "hi".toList } (ContentVal.strV "hi".toList)
        none)
      rfl rfl (fun l h => by simp [mkPayload] at h)).1

/-- C7: file-like inputs are gathered in declaration order —
`options.files` first, then each embed-like object's files in embed
order — and the aggregate resolution preserves that order when every
input resolves, while a single failing input fails the whole call, so a
partial attachment list is never returned. -/
theorem c7_file_order_failfast (loader : Attachment → Except LoadErr Nat)
    (m : APIMessage) (hm : m.files = none) :
    (∀ g : FileLike → ResolvedFile,
      (∀ f ∈ m.options.files.getD [] ++
          ((gatherEmbedLikes (isWebhookLikeT m.target) m.options).map fun e =>
            e.files.getD []).flatten,
        resolveFileM loader f = .ok (g f)) →
      resolveFilesM loader m
        = .ok { m with
            files := some ((m.options.files.getD [] ++
              ((gatherEmbedLikes (isWebhookLikeT m.target) m.options).map fun e =>
                e.files.getD []).flatten).map g) }) ∧
    (∀ f e, f ∈ m.options.files.getD [] ++
          ((gatherEmbedLikes (isWebhookLikeT m.target) m.options).map fun e =>
            e.files.getD []).flatten →
      resolveFileM loader f = .error e →
      ∃ e', resolveFilesM loader m = .error e') := by
  constructor
  · intro g hall
    have hmap := mapE_ok_of_all (resolveFileM loader) g
      (gatherFileLikes (isWebhookLikeT m.target) m.options)
      (fun f hf => hall f hf)
    simp only [resolveFilesM, hm, hmap]
    rfl
  · intro f e hf he
    rcases mapE_error_of_mem (resolveFileM loader)
        (gatherFileLikes (isWebhookLikeT m.target) m.options) f e hf he
      with ⟨e', hmap⟩
    exact ⟨e', by simp only [resolveFilesM, hm, hmap]⟩

/-- Witness for C7: two declared files and one embed file resolve to
`[a.png, b.png, c.png]` in declaration order; a failing loader fails the
whole call. -/
theorem c7_file_order_failfast_witness :
    (resolveFilesM (fun _ => .ok 5)
        { target := mkTarget .webhook,
          options := { files := some [.bare (.strA "dir/a.png".toList),
                                      .bare (.strA "dir/b.png".toList)],
                       embeds := some [{ payload := 1, files := some [.bare (.strA "dir/c.png".toList)] }] } }
      = .ok { target := mkTarget .webhook,
              options := { files := some [.bare (.strA "dir/a.png".toList),
                                          .bare (.strA "dir/b.png".toList)],
                           embeds := some [{ payload := 1, files := some [.bare (.strA "dir/c.png".toList)] }] },
              files := some
                [{ attachment := .strA "dir/a.png".toList,
                   name := "a.png".toList, file := 5 },
                 { attachment := .strA "dir/b.png".toList,
                   name := "b.png".toList, file := 5 },
                 { attachment := .strA "dir/c.png".toList,
                   name := "c.png".toList, file := 5 }] }) ∧
    (∃ e', resolveFilesM (fun _ => .error (.ioError 3))
        { target := mkTarget .webhook,
          options := { files := some [.bare (.strA "dir/a.png".toList)] } }
      = .error e') := by
  constructor
  · exact (c7_file_order_failfast (fun _ => .ok 5)
      { target := mkTarget .webhook,
        options := { files := some [.bare (.strA "dir/a.png".toList),
                                    .bare (.strA "dir/b.png".toList)],
                     embeds := some [{ payload := 1, files := some [.bare (.strA "dir/c.png".toList)] }] } }
      rfl).1
      (fun f => match f with
        | .bare a => { attachment := a, name := findName a, file := 5 }
        | .descr dsc => { attachment := dsc.attachment,
                          name := dsc.name.getD (findName dsc.attachment),
                          file := 5 })
      (by
        intro f hf
        have hf' : f ∈ ([.bare (.strA "dir/a.png".toList),
            .bare (.strA "dir/b.png".toList),
            .bare (.strA "dir/c.png".toList)] : List FileLike) := hf
        simp at hf'
        rcases hf' with rfl | rfl | rfl <;> rfl)
  · exact (c7_file_order_failfast (fun _ => .error (.ioError 3))
      { target := mkTarget .webhook,
        options := { files := some [.bare (.strA "dir/a.png".toList)] } }
      rfl).2 (.bare (.strA "dir/a.png".toList)) (.ioError 3)
      (by simp) rfl

/-- Mapping away the stored target makes the split instances of two
targets indistinguishable: the per-chunk options, data and files never
mention the target. -/
theorem splitInstances_proj (t1 t2 : Target) (o1 : Options)
    (d : PayloadData) :
    ∀ cs : List JStr,
      (splitInstances t1 o1 d cs).map (fun a => (a.options, a.data, a.files))
        = (splitInstances t2 o1 d cs).map
            (fun a => (a.options, a.data, a.files)) := by
  intro cs
  induction cs with
  | nil => rfl
  | cons c cs ih =>
    cases cs with
    | nil => rfl
    | cons c2 rest =>
      simp only [splitInstances, List.map_cons]
      rw [ih]
      rfl

/-- Except for the stored target itself, file resolution does not depend
on which of two targets with equal webhook-likeness is bound. -/
theorem resolveFilesM_proj (loader : Attachment → Except LoadErr Nat)
    (t1 t2 : Target) (o : Options) (dat1 dat2 : Option PayloadData)
    (fil : Option (List ResolvedFile))
    (hWL : isWebhookLikeT t1 = isWebhookLikeT t2) :
    (resolveFilesM loader
        { target := t1, options := o, data := dat1, files := fil }).map
        (fun m => m.files)
      = (resolveFilesM loader
          { target := t2, options := o, data := dat2, files := fil }).map
          (fun m => m.files) := by
  cases fil with
  | some fs => rfl
  | none =>
    simp only [resolveFilesM, hWL]
    cases hmap : mapE (resolveFileM loader)
        (gatherFileLikes (isWebhookLikeT t2) o) with
    | error e => rfl
    | ok fs => rfl

/-- An instance without stored data resolves by building and storing. -/
theorem resolveDataM_of_none (m : APIMessage) (d : PayloadData)
    (hm : m.data = none) (hb : buildData m.target m.options = .ok d) :
    resolveDataM m = .ok { m with data := some d } := by
  unfold resolveDataM
  rw [hm, hb]

/-- Except for the stored target itself, splitting does not depend on
which of two targets with equal build results is bound. -/
theorem splitM_proj (t1 t2 : Target) (o : Options)
    (dat : Option PayloadData) (fil : Option (List ResolvedFile))
    (hbd : buildData t1 o = buildData t2 o) :
    (splitM { target := t1, options := o, data := dat, files := fil }).map
        (fun p => ((p.1.options, p.1.data, p.1.files),
          p.2.map fun a => (a.options, a.data, a.files)))
      = (splitM { target := t2, options := o, data := dat, files := fil }).map
          (fun p => ((p.1.options, p.1.data, p.1.files),
            p.2.map fun a => (a.options, a.data, a.files))) := by
  cases dat with
  | some d =>
    have h1 := splitM_eq
      { target := t1, options := o, data := some d, files := fil }
      { target := t1, options := o, data := some d, files := fil } d
      (resolveDataM_of_some _ d rfl) rfl
    have h2 := splitM_eq
      { target := t2, options := o, data := some d, files := fil }
      { target := t2, options := o, data := some d, files := fil } d
      (resolveDataM_of_some _ d rfl) rfl
    rw [h1, h2]
    cases hc : d.content with
    | arrV chunks =>
      simp only [Except.map]
      rw [splitInstances_proj t1 t2 o d chunks]
    | undef => rfl
    | strV s => rfl
  | none =>
    cases hb : buildData t2 o with
    | error e =>
      have hb1 : buildData t1 o = .error e := hbd.trans hb
      have h1 : splitM { target := t1, options := o, data := none, files := fil }
          = .error e := by
        unfold splitM resolveDataM
        rw [hb1]
      have h2 : splitM { target := t2, options := o, data := none, files := fil }
          = .error e := by
        unfold splitM resolveDataM
        rw [hb]
      rw [h1, h2]
    | ok d =>
      have h1 := splitM_eq
        { target := t1, options := o, data := none, files := fil }
        { target := t1, options := o, data := some d, files := fil } d
        (resolveDataM_of_none _ d rfl (hbd.trans hb)) rfl
      have h2 := splitM_eq
        { target := t2, options := o, data := none, files := fil }
        { target := t2, options := o, data := some d, files := fil } d
        (resolveDataM_of_none _ d rfl hb) rfl
      rw [h1, h2]
      cases hc : d.content with
      | arrV chunks =>
        simp only [Except.map]
        rw [splitInstances_proj t1 t2 o d chunks]
      | undef => rfl
      | strV s => rfl

/-- C10: the user facet is never consulted — a user-class target behaves
exactly like a plain-channel target with the same fields: the built
payload, the resolved files and the split results (up to the stored
target itself) coincide. -/
theorem c10_user_facet_unconsulted
    (loader : Attachment → Except LoadErr Nat) (nm : Option JStr) (fb : Nat)
    (ms cms : MsgColl) (cl : ClientOpts) (o : Options)
    (dat : Option PayloadData) (fil : Option (List ResolvedFile)) :
    buildData { kind := .user, name := nm, flagsBitfield := fb,
                messages := ms, channelMessages := cms, client := cl } o
      = buildData { kind := .channel, name := nm, flagsBitfield := fb,
                    messages := ms, channelMessages := cms, client := cl } o ∧
    (resolveFilesM loader
        { target := { kind := .user, name := nm, flagsBitfield := fb,
                      messages := ms, channelMessages := cms, client := cl },
          options := o, data := dat, files := fil }).map (fun m => m.files)
      = (resolveFilesM loader
          { target := { kind := .channel, name := nm, flagsBitfield := fb,
                        messages := ms, channelMessages := cms, client := cl },
            options := o, data := dat, files := fil }).map (fun m => m.files) ∧
    (splitM { target := { kind := .user, name := nm, flagsBitfield := fb,
                          messages := ms, channelMessages := cms, client := cl },
              options := o, data := dat, files := fil }).map
        (fun p => ((p.1.options, p.1.data, p.1.files),
          p.2.map fun a => (a.options, a.data, a.files)))
      = (splitM { target := { kind := .channel, name := nm, flagsBitfield := fb,
                              messages := ms, channelMessages := cms,
                              client := cl },
                  options := o, data := dat, files := fil }).map
          (fun p => ((p.1.options, p.1.data, p.1.files),
            p.2.map fun a => (a.options, a.data, a.files))) := by
  refine ⟨rfl, ?_, ?_⟩
  · exact resolveFilesM_proj loader _ _ o dat dat fil rfl
  · exact splitM_proj _ _ o dat fil rfl

/-- Witness for C10 at a concrete options bag with content and an
embed. -/
theorem c10_user_facet_unconsulted_witness :
    buildData { kind := .user, name := none, flagsBitfield := 0,
                messages := emptyColl, channelMessages := emptyColl,
                client := { allowedMentions := .undef } }
        { content := .strC "hi".toList, embed := some (some { payload := 9 }) }
      = buildData { kind := .channel, name := none, flagsBitfield := 0,
                    messages := emptyColl, channelMessages := emptyColl,
                    client := { allowedMentions := .undef } }
          { content := .strC "hi".toList,
            embed := some (some { payload := 9 }) } :=
  (c10_user_facet_unconsulted (fun _ => .ok 0) none 0 emptyColl emptyColl
    { allowedMentions := .undef }
    { content := .strC "hi".toList, embed := some (some { payload := 9 }) }
    none none).1

/-- The newline character is not part of the fence marker. -/
theorem newline_not_mem_bt3 : '\n' ∉ bt3 := by decide

/-- C6: for non-empty string content with an active `code` option (tag
without a newline) and an active `split` option without custom
boundary, prepend or append, every chunk the formatter returns opens
with the opening fence (marker plus tag), closes with the closing
marker, and stays within the configured maximum length: the fences are
injected into the split configuration, so each chunk is independently
fenced. -/
theorem c6_code_split_fencing :
    (∀ (codeO : CodeOpt) (splitO : SplitOpt) (s cn : JStr),
      s ≠ [] → codeNameOf codeO = some cn → splitCfgOf splitO = none →
      makeContent (ContentOpt.strC s) codeO splitO
        = .ok (.strV (fenceWrap cn (cleanCodeBlockContent s)))) ∧
    (∀ (codeO : CodeOpt) (splitO : SplitOpt) (s cn : JStr) (sc : SplitConfig)
        (chunks : List JStr),
      s ≠ [] → codeNameOf codeO = some cn → '\n' ∉ cn →
      splitCfgOf splitO = some sc →
      sc.char = none → sc.prepend = none → sc.append = none →
      makeContent (ContentOpt.strC s) codeO splitO
        = .ok (ContentVal.arrV chunks) →
      ∀ k ∈ chunks, leadsWith (fenceOpen cn) k = true ∧
        trailsWith bt3 k = true ∧ k.length ≤ sc.maxLength.getD 2000) := by
  constructor
  · intro codeO splitO s cn hs hcode hsp
    simp only [makeContent, isEmpty_false_of_ne_nil hs, hcode, hsp,
      Bool.false_eq_true, if_false]
  · intro codeO splitO s cn sc chunks hs hcode hnl hsp hch hpre happ hres
    obtain ⟨ml, chv, prv, apv⟩ := sc
    have hch' : chv = none := hch
    have hpre' : prv = none := hpre
    have happ' : apv = none := happ
    subst hch'
    subst hpre'
    subst happ'
    have hfo : '\n' ∉ fenceOpen cn := by
      intro h
      rcases List.mem_append.mp h with h1 | h2
      · exact newline_not_mem_bt3 h1
      · exact hnl h2
    have hinj : injectFences cn ⟨ml, none, none, none⟩
        = ⟨ml, none, some (fenceOpen cn ++ ['\n']), some ('\n' :: bt3)⟩ := by
      simp [injectFences]
    simp only [makeContent, isEmpty_false_of_ne_nil hs, hcode, hsp,
      Bool.false_eq_true, if_false, hinj] at hres
    cases hsm : splitMessage (fenceWrap cn (cleanCodeBlockContent s))
        ⟨ml, none, some (fenceOpen cn ++ ['\n']), some ('\n' :: bt3)⟩ with
    | error e =>
      rw [hsm] at hres
      exact absurd hres (by simp)
    | ok l =>
      rw [hsm] at hres
      simp only [Except.ok.injEq, ContentVal.arrV.injEq] at hres
      subst hres
      simp only [splitMessage, Option.getD_some, Option.getD_none] at hsm
      by_cases hlen :
          (fenceWrap cn (cleanCodeBlockContent s)).length ≤ ml.getD 2000
      · rw [if_pos hlen] at hsm
        simp only [Except.ok.injEq] at hsm
        subst hsm
        intro k hk
        simp only [List.mem_singleton] at hk
        subst hk
        refine ⟨?_, ?_, hlen⟩
        · exact leadsWith_append (fenceOpen cn) _
        · refine trailsWith_iff.mpr
            ⟨fenceOpen cn ++ '\n' :: (cleanCodeBlockContent s ++ ['\n']), ?_⟩
          simp [fenceWrap, List.append_assoc]
      · rw [if_neg hlen] at hsm
        have hpieces : splitOnChar '\n' (fenceWrap cn (cleanCodeBlockContent s))
            = fenceOpen cn
                :: splitOnChar '\n' (cleanCodeBlockContent s ++ '\n' :: bt3) := by
          have hW : fenceWrap cn (cleanCodeBlockContent s)
              = fenceOpen cn ++ '\n' :: (cleanCodeBlockContent s ++ '\n' :: bt3) :=
            rfl
          rw [hW]
          exact splitOnChar_append_cons _ hfo
        rw [hpieces] at hsm
        cases hany : (fenceOpen cn
            :: splitOnChar '\n' (cleanCodeBlockContent s ++ '\n' :: bt3)).any
              fun q => ml.getD 2000
                < (fenceOpen cn ++ ['\n']).length + q.length
                  + ('\n' :: bt3).length with
        | true =>
          rw [hany] at hsm
          simp at hsm
        | false =>
          rw [hany] at hsm
          simp only [Bool.false_eq_true, if_false, Except.ok.injEq] at hsm
          have hall : ∀ q ∈ fenceOpen cn
              :: splitOnChar '\n' (cleanCodeBlockContent s ++ '\n' :: bt3),
              (fenceOpen cn ++ ['\n']).length + q.length
                + ('\n' :: bt3).length ≤ ml.getD 2000 := by
            intro q hq
            have := List.any_eq_false.mp hany q hq
            simpa [Nat.not_lt] using this
          subst hsm
          intro k hk
          have hrest_ne : splitOnChar '\n'
              (cleanCodeBlockContent s ++ '\n' :: bt3) ≠ [] :=
            splitOnChar_ne_nil _ _
          have hlast : splitOnChar '\n'
              (cleanCodeBlockContent s ++ '\n' :: bt3) ≠ [] →
              trailsWith bt3 ((splitOnChar '\n'
                (cleanCodeBlockContent s ++ '\n' :: bt3)).getLastD []) = true := by
            intro _
            have h1 := getLastD_splitOnChar_append
              (cleanCodeBlockContent s) bt3 (c := '\n')
            rw [splitOnChar_of_not_mem newline_not_mem_bt3] at h1
            simp only [List.getLastD_cons] at h1
            rw [h1]
            simp only [List.getLastD]
            exact trailsWith_self bt3
          refine ⟨?_, ?_, ?_⟩
          · exact splitRun_leadsWith (ml.getD 2000) '\n'
              (fenceOpen cn ++ ['\n']) ('\n' :: bt3) (fenceOpen cn)
              (leadsWith_append _ _) _ (fenceOpen cn) (leadsWith_self _) k hk
          · exact splitRun_trailsWith (ml.getD 2000) '\n'
              (fenceOpen cn ++ ['\n']) ('\n' :: bt3) bt3
              (trailsWith_append bt3 ['\n']) _ (fenceOpen cn) hlast
              (fun he => absurd he hrest_ne) k hk
          · refine splitRun_length_le (ml.getD 2000) '\n'
              (fenceOpen cn ++ ['\n']) ('\n' :: bt3) _ (fenceOpen cn)
              (fun q hq => hall q (List.mem_cons_of_mem _ hq)) ?_ k hk
            have := hall (fenceOpen cn) (by simp)
            have hplen : (fenceOpen cn ++ ['\n']).length
                = (fenceOpen cn).length + 1 := by simp
            omega

/-- Witness for C6: `"aaa\nbbb"` with code tag `js` and `maxLength` 15
splits into three chunks, each independently fenced and within the
limit. -/
theorem c6_code_split_fencing_witness :
    makeContent (ContentOpt.strC "a".toList) (CodeOpt.lang "js".toList)
        SplitOpt.undef
      = .ok (.strV (fenceWrap "js".toList (cleanCodeBlockContent "a".toList))) ∧
    ∀ k ∈ ["```js\naaa\n```".toList, "```js\nbbb\n```".toList,
           "```js\n```".toList],
      leadsWith (fenceOpen "js".toList) k = true ∧
        trailsWith bt3 k = true ∧ k.length ≤ 15 :=
  ⟨c6_code_split_fencing.1 (CodeOpt.lang "js".toList) SplitOpt.undef
    "a".toList "js".toList (by decide) rfl rfl,
   c6_code_split_fencing.2 (CodeOpt.lang "js".toList)
    (SplitOpt.cfg { maxLength := some 15 })
    "aaa\nbbb".toList "js".toList { maxLength := some 15 }
    ["```js\naaa\n```".toList, "```js\nbbb\n```".toList, "```js\n```".toList]
    (by decide) rfl (by decide) rfl rfl rfl rfl rfl⟩
